import Mathlib

/-!
Verification of the threaded comment acquisition engine of the
Douyin mix crawler repository.

The repository contains four orchestration scripts sharing one pagination
idiom.  The claims concern:
  * `crawl_mix_api.py`   — `DouyinAPICrawler.fetch_video_comments`,
    `fetch_comment_replies`, `_parse_comment`, `process_video`, `crawl_mix`;
  * `crawl_mix_complete.py` — `MixCrawler.get_all_comments`,
    `get_comment_replies`;
  * `crawl_mix_drission.py` — `DrissionMixCrawler.process_video`,
    `get_video_comments` (coverage verification pass),
    `get_video_comments_api`;
  * `crawl_mix_playwright.py` — `PlaywrightMixCrawler.get_video_comments`
    (parent linkage of level-2 comments).

The upstream feed is modelled as the sequence of responses the crawler's
successive fetch calls receive: the n-th fetch consumes the n-th element of a
`List FetchResult`; an exhausted list behaves as a falsy response (the
crawlers break on those).  A separate function `String → List FetchResult`
supplies, per parent comment id, the responses its reply sub-fetch receives.
Cursors are opaque numbers: the loops only update them and compare them for
equality, exactly as the source does.
-/

namespace DouyinCrawl

/-- A raw comment record as delivered by the feed: its `cid` and its reported
`reply_comment_total`.  (Other fields of the raw record do not influence the
control flow of the harvest loops.) -/
structure RawComment where
  cid : String
  replyTotal : Nat
deriving DecidableEq, Repr

/-- One successful page of the comment feed: the `comments` list, the
`has_more` flag and the `cursor` value of the response. -/
structure Page where
  comments : List RawComment
  hasMore : Bool
  cursor : Nat
deriving DecidableEq, Repr

/-- Outcome of one fetch call: a page, a falsy response (`if not resp`),
or an exception raised during the call. -/
inductive FetchResult where
  | page (p : Page)
  | nil
  | err
deriving DecidableEq, Repr

/-! ## `crawl_mix_api.py` — `DouyinAPICrawler`

`_parse_comment` there returns a flat dict with no parent field, so the
node type of this crawler carries only the comment id and the level. -/

/-- A parsed comment as accumulated by `DouyinAPICrawler.fetch_video_comments`:
`comment_id` and `level` (1 = root, 2 = reply). -/
structure ApiComment where
  id : String
  level : Nat
deriving DecidableEq, Repr

/-- Inner `for reply in comment_list` of `fetch_comment_replies`
(crawl_mix_api.py lines 244-254): skip an empty or already seen `cid`,
otherwise register and append it, and break once `len(replies) >= max_replies`. -/
def addReplies (maxR : Nat) : List RawComment → List ApiComment → List String → List ApiComment × List String
  | [], ns, ids => (ns, ids)
  | r :: rs, ns, ids =>
    if r.cid = "" ∨ r.cid ∈ ids then addReplies maxR rs ns ids
    else
      let ns' := ns ++ [⟨r.cid, 2⟩]
      if maxR ≤ ns'.length then (ns', ids ++ [r.cid])
      else addReplies maxR rs ns' (ids ++ [r.cid])

/-- State of the reply pagination loop of `fetch_comment_replies`:
accumulated replies, the local `reply_ids` dedup set, and the cursor. -/
structure ReplySt where
  nodes : List ApiComment
  ids : List String
  cursor : Nat
deriving DecidableEq, Repr

/-- Pagination loop of `DouyinAPICrawler.fetch_comment_replies`
(crawl_mix_api.py lines 228-267): runs while `len(replies) < max_replies`;
a falsy response, an exception, or an empty page breaks; after a page it
breaks when `has_more` is falsy or the returned cursor equals the previous
cursor. -/
def replyLoop (maxR : Nat) : ReplySt → List FetchResult → ReplySt
  | st, [] => st
  | st, .err :: _ => st
  | st, .nil :: _ => st
  | st, .page p :: rest =>
    if st.nodes.length < maxR then
      if p.comments = [] then st
      else
        let pr := addReplies maxR p.comments st.nodes st.ids
        if p.hasMore = false ∨ p.cursor = st.cursor then { st with nodes := pr.1, ids := pr.2 }
        else replyLoop maxR ⟨pr.1, pr.2, p.cursor⟩ rest
    else st

/-- `DouyinAPICrawler.fetch_comment_replies` (crawl_mix_api.py lines 220-270):
`max_replies = min(expected_count, 100)`, then the reply pagination loop
starting from an empty accumulator and cursor 0. -/
def fetchCommentReplies (expected : Nat) (feed : List FetchResult) : List ApiComment :=
  (replyLoop (min expected 100) ⟨[], [], 0⟩ feed).nodes

/-- `for reply in replies` of `fetch_video_comments` (crawl_mix_api.py lines
196-199): append each fetched reply whose id is not yet in the session's
`comment_ids` set.  No cap check happens inside this loop. -/
def addFiltered : List ApiComment → List ApiComment → List String → List ApiComment × List String
  | [], ns, ids => (ns, ids)
  | r :: rs, ns, ids =>
    if r.id ∈ ids then addFiltered rs ns ids
    else addFiltered rs (ns ++ [r]) (ids ++ [r.id])

/-- Inner `for comment in comment_list` of `fetch_video_comments`
(crawl_mix_api.py lines 179-202): skip an empty or seen `cid`; otherwise
register it, append the level-1 node, fetch and merge its replies when
`fetch_replies` is set and `reply_comment_total > 0`, and break once
`len(comments) >= max_comments`.  The cap check runs only after the whole
reply batch of the current root has been appended. -/
def procRoots (maxC : Nat) (fr : Bool) (rf : String → List FetchResult) :
    List RawComment → List ApiComment → List String → List ApiComment × List String
  | [], ns, ids => (ns, ids)
  | c :: cs, ns, ids =>
    if c.cid = "" ∨ c.cid ∈ ids then procRoots maxC fr rf cs ns ids
    else
      let ns1 := ns ++ [⟨c.cid, 1⟩]
      let ids1 := ids ++ [c.cid]
      let pr :=
        if fr = true ∧ 0 < c.replyTotal then
          addFiltered (fetchCommentReplies c.replyTotal (rf c.cid)) ns1 ids1
        else (ns1, ids1)
      if maxC ≤ pr.1.length then pr
      else procRoots maxC fr rf cs pr.1 pr.2

/-- State of `fetch_video_comments`: accumulated comments, the `comment_ids`
dedup set, the current cursor, and the number of fetch calls made. -/
structure ApiSt where
  nodes : List ApiComment
  ids : List String
  cursor : Nat
  calls : Nat
deriving DecidableEq, Repr

/-- `st` with one more fetch call recorded. -/
def ApiSt.bump (st : ApiSt) : ApiSt :=
  { st with calls := st.calls + 1 }

/-- Pagination loop of `DouyinAPICrawler.fetch_video_comments`
(crawl_mix_api.py lines 166-216): runs while `len(comments) < max_comments`;
a falsy response, an exception (`except: break`), or an empty page breaks;
after processing a page it breaks when `has_more` is falsy or the returned
cursor equals the previous one. -/
def apiFetchLoop (maxC : Nat) (fr : Bool) (rf : String → List FetchResult) :
    ApiSt → List FetchResult → ApiSt
  | st, [] => st
  | st, .err :: _ => if st.nodes.length < maxC then st.bump else st
  | st, .nil :: _ => if st.nodes.length < maxC then st.bump else st
  | st, .page p :: rest =>
    if st.nodes.length < maxC then
      if p.comments = [] then st.bump
      else
        let pr := procRoots maxC fr rf p.comments st.nodes st.ids
        if p.hasMore = false ∨ p.cursor = st.cursor then
          { nodes := pr.1, ids := pr.2, cursor := st.cursor, calls := st.calls + 1 }
        else
          apiFetchLoop maxC fr rf { nodes := pr.1, ids := pr.2, cursor := p.cursor, calls := st.calls + 1 } rest
    else st

/-- `DouyinAPICrawler.fetch_video_comments` (crawl_mix_api.py lines 158-218):
the root pagination loop from an empty session (`comments = []`,
`comment_ids = set()`, `cursor = 0`). -/
def apiFetchVideoComments (maxC : Nat) (fr : Bool) (rf : String → List FetchResult)
    (feed : List FetchResult) : ApiSt :=
  apiFetchLoop maxC fr rf ⟨[], [], 0, 0⟩ feed

/-! ## `crawl_mix_complete.py` — `MixCrawler`

`format_comment_row` records a `评论ID` (comment id), a `层级` (level) and a
`父评论ID` (parent comment id, empty for level-1 rows), so the node type of
this crawler carries id, level and parent id. -/

/-- A comment row as produced by `MixCrawler.format_comment_row`:
comment id, level and parent comment id (empty for level-1 rows). -/
structure CRow where
  id : String
  level : Nat
  parentId : String
deriving DecidableEq, Repr

/-- Inner `for r in data` of `get_comment_replies` (crawl_mix_complete.py
lines 262-265): append every delivered record as a level-2 row with the
parent's id — no dedup, no empty-id check — and break once
`len(replies) >= max_needed`. -/
def compAdd (maxN : Nat) (pid : String) : List RawComment → List CRow → List CRow
  | [], ns => ns
  | r :: rs, ns =>
    let ns' := ns ++ [⟨r.cid, 2, pid⟩]
    if maxN ≤ ns'.length then ns' else compAdd maxN pid rs ns'

/-- Pagination loop of `MixCrawler.get_comment_replies` (crawl_mix_complete.py
lines 251-273): runs while `len(replies) < max_needed`; a falsy or
`comments`-less response, an exception, or an empty page breaks; after a page
it breaks only when `has_more != 1` — there is no cursor-equality guard
(the cursor is stored and passed to the next call but never compared). -/
def compReplyLoop (maxN : Nat) (pid : String) : List CRow → List FetchResult → List CRow
  | ns, [] => ns
  | ns, .err :: _ => ns
  | ns, .nil :: _ => ns
  | ns, .page p :: rest =>
    if ns.length < maxN then
      if p.comments = [] then ns
      else
        let ns' := compAdd maxN pid p.comments ns
        if p.hasMore = false then ns' else compReplyLoop maxN pid ns' rest
    else ns

/-- `MixCrawler.get_comment_replies` (crawl_mix_complete.py lines 247-274):
fetch at most `max_needed` level-2 rows for parent `pid`. -/
def getCommentReplies (pid : String) (maxN : Nat) (feed : List FetchResult) : List CRow :=
  compReplyLoop maxN pid [] feed

/-- Inner `for c in comments` of `get_all_comments` (crawl_mix_complete.py
lines 219-232): append every delivered root as a level-1 row (no dedup);
when `reply_comment_total > 0` and the cap is not yet reached, fetch at most
`max_comments - len(collected)` replies for it and extend; break once
`len(collected) >= max_comments`. -/
def compProcRoots (maxC : Nat) (rf : String → List FetchResult) :
    List RawComment → List CRow → List CRow
  | [], ns => ns
  | c :: cs, ns =>
    let ns1 := ns ++ [⟨c.cid, 1, ""⟩]
    let ns2 :=
      if 0 < c.replyTotal ∧ ns1.length < maxC then
        ns1 ++ getCommentReplies c.cid (maxC - ns1.length) (rf c.cid)
      else ns1
    if maxC ≤ ns2.length then ns2 else compProcRoots maxC rf cs ns2

/-- State of `get_all_comments`: the accumulated rows and the number of
root-feed fetch calls made. -/
structure CompSt where
  nodes : List CRow
  calls : Nat
deriving DecidableEq, Repr

/-- Pagination loop of `MixCrawler.get_all_comments` (crawl_mix_complete.py
lines 208-242): runs while `len(collected) < max_comments`; a falsy or
`comments`-less response, an exception, or an empty page breaks; after a page
it breaks only when `has_more != 1` — there is no cursor-equality guard. -/
def compMainLoop (maxC : Nat) (rf : String → List FetchResult) :
    CompSt → List FetchResult → CompSt
  | st, [] => st
  | st, .err :: _ => if st.nodes.length < maxC then ⟨st.nodes, st.calls + 1⟩ else st
  | st, .nil :: _ => if st.nodes.length < maxC then ⟨st.nodes, st.calls + 1⟩ else st
  | st, .page p :: rest =>
    if st.nodes.length < maxC then
      if p.comments = [] then ⟨st.nodes, st.calls + 1⟩
      else
        let ns := compProcRoots maxC rf p.comments st.nodes
        if p.hasMore = false then ⟨ns, st.calls + 1⟩
        else compMainLoop maxC rf ⟨ns, st.calls + 1⟩ rest
    else st

/-- `MixCrawler.get_all_comments` (crawl_mix_complete.py lines 203-245):
the root pagination loop from an empty accumulator. -/
def getAllComments (maxC : Nat) (rf : String → List FetchResult)
    (feed : List FetchResult) : CompSt :=
  compMainLoop maxC rf ⟨[], 0⟩ feed

/-! ## `crawl_mix_playwright.py` — `PlaywrightMixCrawler.get_video_comments`

Lines 946-973: the DOM-extracted raw comments are walked in extraction
order (truncated to `max_comments`); each element gets a synthetic `cid`
derived from its content and index; a level-1 element updates the running
`parent_cid`, and a level-2 element is linked to the current `parent_cid`
(initially the empty string). -/

/-- A DOM-extracted raw comment of the Playwright crawler; only its `level`
steers the parent-linkage logic. -/
structure PwRaw where
  level : Nat
deriving DecidableEq, Repr

/-- `for idx, c in enumerate(raw_comments[:max_comments])` body
(crawl_mix_playwright.py lines 949-973), with `hash` standing for the
synthetic-cid computation `str(abs(hash(f"...{idx}")))`. -/
def pwGo (hash : PwRaw → Nat → String) : List PwRaw → Nat → String → List CRow → List CRow
  | [], _, _, acc => acc
  | c :: cs, idx, pcid, acc =>
    let cid := hash c idx
    let pcid' := if c.level = 1 then cid else pcid
    pwGo hash cs (idx + 1) pcid'
      (acc ++ [⟨cid, c.level, if c.level = 2 then pcid' else ""⟩])

/-- Comment assembly of `PlaywrightMixCrawler.get_video_comments`
(crawl_mix_playwright.py lines 946-973). -/
def pwBuild (hash : PwRaw → Nat → String) (maxC : Nat) (raws : List PwRaw) : List CRow :=
  pwGo hash (raws.take maxC) 0 "" []

/-! ## Coverage, strategy selection and the per-video policy
(`process_video` of crawl_mix_api.py lines 371-383 and of
crawl_mix_drission.py lines 1288-1321). -/

/-- The coverage expression used by both `process_video` variants
(crawl_mix_api.py line 372, crawl_mix_drission.py line 1310) and by the
drission scroll loop (line 941):
`(actual_count / total_expected * 100) if total_expected > 0 else 0`. -/
def coveragePct (actual expected : Nat) : ℚ :=
  if 0 < expected then (actual : ℚ) / (expected : ℚ) * 100 else 0

/-- The two acquisition strategies of `DrissionMixCrawler.process_video`:
API root-comments-only (lightweight) versus browser scrolling with replies
(intensive). -/
inductive Strategy where
  | lightweight
  | intensive
deriving DecidableEq, Repr

/-- `LARGE_COMMENT_THRESHOLD` (crawl_mix_drission.py line 1292). -/
def LARGE_COMMENT_THRESHOLD : Nat := 1500

/-- Strategy choice of `DrissionMixCrawler.process_video` (line 1297):
API mode exactly when `total_expected > LARGE_COMMENT_THRESHOLD`. -/
def selectStrategy (expected : Nat) : Strategy :=
  if LARGE_COMMENT_THRESHOLD < expected then .lightweight else .intensive

/-- Comment acquisition of `DrissionMixCrawler.process_video`
(crawl_mix_drission.py lines 1288-1307), instrumented with the list of
strategies it invokes.  `apiResult` is what `get_video_comments_api` would
return and `browserResult` what `get_video_comments` would return (`none`
models its video-not-found `None`).  The chosen strategy's result is taken
as-is: there is no fallback to the other strategy in the source. -/
def acquireComments (crawlComments : Bool) (expected : Nat)
    (apiResult : List CRow) (browserResult : Option (List CRow)) :
    List CRow × Bool × List Strategy :=
  if crawlComments = true ∧ 0 < expected then
    if LARGE_COMMENT_THRESHOLD < expected then (apiResult, false, [.lightweight])
    else
      match browserResult with
      | none => ([], true, [.intensive])
      | some l => (l, false, [.intensive])
  else ([], false, [])

/-! ## Coverage-100% verification pass of
`DrissionMixCrawler.get_video_comments` (crawl_mix_drission.py lines
953-980).  When the logged coverage reaches 100%, the loop performs one
verification pass: it scrolls once more and drains up to five pending
responses; any response comment whose `cid` is non-empty and not yet in
`comment_ids` is registered and appended and marks the pass as successful.
If nothing new was found the loop breaks (harvest accepted as complete),
otherwise it continues scrolling. -/

/-- Per-comment body of the verification pass (lines 967-972): a non-empty,
previously unseen `cid` is appended to the seen set and flips
`verify_found`. -/
def verifyStep (p : List String × Bool) (cid : String) : List String × Bool :=
  if cid ≠ "" ∧ cid ∉ p.1 then (p.1 ++ [cid], true) else p

/-- Drain of the verification responses (lines 961-974): each response is a
list of delivered `cid`s (a falsy or malformed response behaves as the empty
list, its comments being skipped). -/
def verifyFold : List String → Bool → List (List String) → List String × Bool
  | ids, found, [] => (ids, found)
  | ids, found, resp :: rest =>
    let r := resp.foldl verifyStep (ids, found)
    verifyFold r.1 r.2 rest

/-- Outcome of the coverage check: accept completion and stop, or resume
scrolling. -/
inductive ScrollDecision where
  | stop
  | resume
deriving DecidableEq, Repr

/-- The coverage-100% check block (lines 953-980): reached only when the
logged coverage is at least 100%; runs the verification pass once and breaks
exactly when it found nothing new.  `none` models the block not triggering
(coverage below 100%). -/
def coverageCheck (expected : Nat) (ids : List String) (batch : List (List String)) :
    Option (ScrollDecision × List String) :=
  if 100 ≤ coveragePct ids.length expected then
    let r := verifyFold ids false batch
    some (if r.2 = true then .resume else .stop, r.1)
  else none

/-! ## The per-video run loop of `DouyinAPICrawler.crawl_mix`
(crawl_mix_api.py lines 518-529): each video is processed under
`try/except`; an exception increments `failed_videos` and the loop
continues with the next video. -/

/-- Outcome of processing one video: normal completion (which increments
`processed_videos` at the end of `process_video`) or an exception caught by
the run loop. -/
inductive VideoOutcome where
  | ok
  | exn
deriving DecidableEq, Repr

/-- The aggregate counters touched by the run loop. -/
structure RunStats where
  processed : Nat
  failed : Nat
deriving DecidableEq, Repr

/-- `for video in videos` of `crawl_mix` (crawl_mix_api.py lines 519-529):
a successful `process_video` increments `processed_videos`; an exception is
caught, increments `failed_videos`, and the loop continues. -/
def crawlLoop : RunStats → List VideoOutcome → RunStats
  | s, [] => s
  | s, .ok :: rest => crawlLoop ⟨s.processed + 1, s.failed⟩ rest
  | s, .exn :: rest => crawlLoop ⟨s.processed, s.failed + 1⟩ rest

/-! ## `DouyinAPICrawler._parse_comment` (crawl_mix_api.py lines 272-325)

The input is an arbitrary Python dictionary; field values may be missing,
`None`, or of the wrong type.  The body runs under `try`; any raising
operation (`.strip()` on a non-string, an ordering comparison between a
non-integer and an integer, `.get` on a non-dictionary) aborts to the
`except` branch, which builds a fallback record.  Both branches set the
record's `level` to the `level` argument. -/

/-- A Python value as far as `_parse_comment` inspects it. -/
inductive PyVal where
  | pnone
  | pstr (s : String)
  | pint (n : Int)
  | pdict (fields : List (String × PyVal))

/-- `d.get(k, default)` on a dictionary given as an association list
(first binding wins, as in a Python dict there is at most one). -/
def pyGet (fields : List (String × PyVal)) (k : String) (d : PyVal) : PyVal :=
  match fields.find? (fun kv => kv.1 = k) with
  | some kv => kv.2
  | none => d

/-- Python truthiness of a value of the modelled shapes. -/
def pyTruthy : PyVal → Bool
  | .pnone => false
  | .pstr s => s != ""
  | .pint n => n != 0
  | .pdict fields => !fields.isEmpty

/-- Python `a or b`. -/
def pyOr (a b : PyVal) : PyVal :=
  if pyTruthy a then a else b

/-- Python `str(v)` for the modelled shapes (the exact text of the
dictionary case is irrelevant to every claim). -/
def pyStr : PyVal → String
  | .pnone => "None"
  | .pstr s => s
  | .pint n => toString n
  | .pdict _ => "dict"

/-- `v.strip()`: succeeds only on a string (otherwise `AttributeError`). -/
def pyStrip : PyVal → Option String
  | .pstr s => some s.trim
  | _ => none

/-- Using `v` as an integer in an ordering comparison: succeeds only on an
integer (otherwise `TypeError`). -/
def pyAsInt : PyVal → Option Int
  | .pint n => some n
  | _ => none

/-- `v.get(k, default)`: succeeds only on a dictionary
(otherwise `AttributeError`). -/
def pyGetAttr (v : PyVal) (k : String) (d : PyVal) : Option PyVal :=
  match v with
  | .pdict fields => some (pyGet fields k d)
  | _ => none

/-- The record `_parse_comment` returns.  Fields taken verbatim from the
dictionary stay `PyVal`; `level` is the Python `int` argument. -/
structure ParsedComment where
  comment_id : PyVal
  text : PyVal
  user : PyVal
  user_id : PyVal
  digg_count : PyVal
  reply_count : PyVal
  create_time : PyVal
  ip_label : PyVal
  level : Nat
  reply_to : PyVal

/-- The `reply_to` computation (lines 297-299); it cannot raise on a
dictionary input. -/
def replyToOf (c : List (String × PyVal)) : PyVal :=
  if pyTruthy (pyGet c "reply_to_userid" .pnone) = true then
    pyOr (pyGet c "reply_to_username" (.pstr ""))
      (.pstr (pyStr (pyGet c "reply_to_userid" (.pstr ""))))
  else .pstr ""

/-- The `try` body of `_parse_comment` (lines 274-312).  `fmtTime` models
`datetime.fromtimestamp(...).strftime(...)`: its own `try/except` yields
`''` when it raises, hence the `Option`.  A `none` result models the body
raising into the outer `except`. -/
def tryParseComment (c : List (String × PyVal)) (level : Nat)
    (fmtTime : Int → Option String) : Option ParsedComment :=
  match pyStrip (pyGet c "text" (.pstr "")), pyAsInt (pyGet c "create_time" (.pint 0)) with
  | some text, some ct0 =>
    let ct := if 10000000000 < ct0 then Int.fdiv ct0 1000 else ct0
    let timeStr := (fmtTime ct).getD ""
    match pyGetAttr (pyGet c "user" (.pdict [])) "nickname" (.pstr ""),
        pyGetAttr (pyGet c "user" (.pdict [])) "uid" (.pstr ""),
        pyGetAttr (pyGet c "user" (.pdict [])) "sec_uid" (.pstr "") with
    | some nickname, some uid, some secUid =>
      some
        { comment_id := pyGet c "cid" (.pstr "")
          text := .pstr text
          user := nickname
          user_id := pyOr uid secUid
          digg_count := pyGet c "digg_count" (.pint 0)
          reply_count := pyGet c "reply_comment_total" (.pint 0)
          create_time := .pstr timeStr
          ip_label := pyGet c "ip_label" (.pstr "")
          level := level
          reply_to := replyToOf c }
    | _, _, _ => none
  | _, _ => none

/-- `DouyinAPICrawler._parse_comment` (crawl_mix_api.py lines 272-325):
the `try` body, with the `except` branch (lines 313-325) as fallback. -/
def parseComment (c : List (String × PyVal)) (level : Nat)
    (fmtTime : Int → Option String) : ParsedComment :=
  match tryParseComment c level fmtTime with
  | some p => p
  | none =>
    { comment_id := pyGet c "cid" (.pstr "")
      text := pyGet c "text" (.pstr "")
      user := .pstr ""
      user_id := .pstr ""
      digg_count := .pint 0
      reply_count := .pint 0
      create_time := .pstr ""
      ip_label := .pstr ""
      level := level
      reply_to := .pstr "" }

/-! ## Parent-linkage predicate (spec §3 invariant, claims C9)

`LinkedOk seen rows` holds when every level-2 row of `rows` names as parent
the id of a level-1 row occurring before it (`seen` collects the rows
already emitted, most recent first). -/

/-- Every level-2 row's `parentId` is the id of a level-1 row emitted
earlier. -/
def LinkedOk : List CRow → List CRow → Prop
  | _, [] => True
  | seen, n :: rest =>
    (n.level = 2 → ∃ m ∈ seen, m.level = 1 ∧ m.id = n.parentId) ∧
      LinkedOk (n :: seen) rest

instance instDecidableLinkedOk : (seen l : List CRow) → Decidable (LinkedOk seen l)
  | _, [] => .isTrue trivial
  | seen, n :: rest =>
    have : Decidable (LinkedOk (n :: seen) rest) := instDecidableLinkedOk (n :: seen) rest
    inferInstanceAs (Decidable (_ ∧ _))

/-! ## Length bounds -/

theorem addReplies_length_le (maxR : Nat) :
    ∀ (rs : List RawComment) (ns : List ApiComment) (ids : List String),
      ns.length < maxR → (addReplies maxR rs ns ids).1.length ≤ maxR := by
  intro rs
  induction rs with
  | nil => intro ns ids h; simpa [addReplies] using Nat.le_of_lt h
  | cons r rs ih =>
    intro ns ids h
    simp only [addReplies]
    split
    · exact ih ns ids h
    · split
      · simpa using h
      · exact ih _ _ (by omega)

theorem replyLoop_length_le (maxR : Nat) :
    ∀ (feed : List FetchResult) (st : ReplySt),
      st.nodes.length ≤ maxR → (replyLoop maxR st feed).nodes.length ≤ maxR := by
  intro feed
  induction feed with
  | nil => intro st h; simpa [replyLoop] using h
  | cons r rest ih =>
    intro st h
    match r with
    | .err => simpa [replyLoop] using h
    | .nil => simpa [replyLoop] using h
    | .page p =>
      simp only [replyLoop]
      split
      · split
        · exact h
        · split
          · exact addReplies_length_le maxR p.comments st.nodes st.ids (by omega)
          · exact ih _ (addReplies_length_le maxR p.comments st.nodes st.ids (by omega))
      · exact h

theorem fetchCommentReplies_length_le (expected : Nat) (feed : List FetchResult) :
    (fetchCommentReplies expected feed).length ≤ min expected 100 :=
  replyLoop_length_le (min expected 100) feed ⟨[], [], 0⟩ (by simp)

theorem addFiltered_length_le :
    ∀ (rs ns : List ApiComment) (ids : List String),
      (addFiltered rs ns ids).1.length ≤ ns.length + rs.length := by
  intro rs
  induction rs with
  | nil => intro ns ids; simp [addFiltered]
  | cons r rs ih =>
    intro ns ids
    simp only [addFiltered, List.length_cons]
    split
    · have := ih ns ids; omega
    · have := ih (ns ++ [r]) (ids ++ [r.id])
      simp only [List.length_append, List.length_cons, List.length_nil] at this
      omega

theorem procRoots_length_le (maxC : Nat) (fr : Bool) (rf : String → List FetchResult) :
    ∀ (cs : List RawComment) (ns : List ApiComment) (ids : List String),
      ns.length < maxC → (procRoots maxC fr rf cs ns ids).1.length ≤ maxC + 100 := by
  intro cs
  induction cs with
  | nil => intro ns ids h; simp only [procRoots]; omega
  | cons c cs ih =>
    intro ns ids h
    simp only [procRoots]
    split
    · exact ih ns ids h
    · have h1 := addFiltered_length_le (fetchCommentReplies c.replyTotal (rf c.cid))
        (ns ++ [⟨c.cid, 1⟩]) (ids ++ [c.cid])
      have h2 : (fetchCommentReplies c.replyTotal (rf c.cid)).length ≤ 100 :=
        le_trans (fetchCommentReplies_length_le c.replyTotal (rf c.cid))
          (Nat.min_le_right _ _)
      simp only [List.length_append, List.length_cons, List.length_nil] at h1
      split
      · split
        · omega
        · rename_i hlt
          exact ih _ _ (by omega)
      · split
        · simp only [List.length_append, List.length_cons, List.length_nil]
          omega
        · rename_i hlt
          simp only [List.length_append, List.length_cons, List.length_nil] at hlt
          exact ih _ _ (by simp only [List.length_append, List.length_cons, List.length_nil]; omega)

theorem apiFetchLoop_length_le (maxC : Nat) (fr : Bool) (rf : String → List FetchResult) :
    ∀ (feed : List FetchResult) (st : ApiSt),
      st.nodes.length ≤ maxC + 100 → (apiFetchLoop maxC fr rf st feed).nodes.length ≤ maxC + 100 := by
  intro feed
  induction feed with
  | nil => intro st h; simpa [apiFetchLoop] using h
  | cons r rest ih =>
    intro st h
    match r with
    | .err => simp only [apiFetchLoop]; split <;> simpa [ApiSt.bump] using h
    | .nil => simp only [apiFetchLoop]; split <;> simpa [ApiSt.bump] using h
    | .page p =>
      simp only [apiFetchLoop]
      split
      · split
        · simpa [ApiSt.bump] using h
        · split
          · exact procRoots_length_le maxC fr rf p.comments st.nodes st.ids (by omega)
          · exact ih _ (procRoots_length_le maxC fr rf p.comments st.nodes st.ids (by omega))
      · exact h

theorem compAdd_length_le (maxN : Nat) (pid : String) :
    ∀ (rs : List RawComment) (ns : List CRow),
      ns.length < maxN → (compAdd maxN pid rs ns).length ≤ maxN := by
  intro rs
  induction rs with
  | nil => intro ns h; simpa [compAdd] using Nat.le_of_lt h
  | cons r rs ih =>
    intro ns h
    simp only [compAdd]
    split
    · simpa using h
    · exact ih _ (by omega)

theorem compReplyLoop_length_le (maxN : Nat) (pid : String) :
    ∀ (feed : List FetchResult) (ns : List CRow),
      ns.length ≤ maxN → (compReplyLoop maxN pid ns feed).length ≤ maxN := by
  intro feed
  induction feed with
  | nil => intro ns h; simpa [compReplyLoop] using h
  | cons r rest ih =>
    intro ns h
    match r with
    | .err => simpa [compReplyLoop] using h
    | .nil => simpa [compReplyLoop] using h
    | .page p =>
      simp only [compReplyLoop]
      split
      · split
        · exact h
        · split
          · exact compAdd_length_le maxN pid p.comments ns (by omega)
          · exact ih _ (compAdd_length_le maxN pid p.comments ns (by omega))
      · exact h

theorem getCommentReplies_length_le (pid : String) (maxN : Nat) (feed : List FetchResult) :
    (getCommentReplies pid maxN feed).length ≤ maxN :=
  compReplyLoop_length_le maxN pid feed [] (by simp)

theorem compProcRoots_length_le (maxC : Nat) (rf : String → List FetchResult) :
    ∀ (cs : List RawComment) (ns : List CRow),
      ns.length < maxC → (compProcRoots maxC rf cs ns).length ≤ maxC := by
  intro cs
  induction cs with
  | nil => intro ns h; simp only [compProcRoots]; omega
  | cons c cs ih =>
    intro ns h
    simp only [compProcRoots]
    have h1 := getCommentReplies_length_le c.cid
      (maxC - (ns ++ [(⟨c.cid, 1, ""⟩ : CRow)]).length) (rf c.cid)
    split
    · rename_i hcond
      simp only [List.length_append, List.length_cons, List.length_nil] at h1 hcond
      split
      · simp only [List.length_append, List.length_cons, List.length_nil]
        omega
      · rename_i hlt
        simp only [List.length_append, List.length_cons, List.length_nil] at hlt
        exact ih _ (by simp only [List.length_append, List.length_cons, List.length_nil]; omega)
    · split
      · simp only [List.length_append, List.length_cons, List.length_nil]
        omega
      · rename_i hlt
        simp only [List.length_append, List.length_cons, List.length_nil] at hlt
        exact ih _ (by simp only [List.length_append, List.length_cons, List.length_nil]; omega)

theorem compMainLoop_length_le (maxC : Nat) (rf : String → List FetchResult) :
    ∀ (feed : List FetchResult) (st : CompSt),
      st.nodes.length ≤ maxC → (compMainLoop maxC rf st feed).nodes.length ≤ maxC := by
  intro feed
  induction feed with
  | nil => intro st h; simpa [compMainLoop] using h
  | cons r rest ih =>
    intro st h
    match r with
    | .err => simp only [compMainLoop]; split <;> simpa using h
    | .nil => simp only [compMainLoop]; split <;> simpa using h
    | .page p =>
      simp only [compMainLoop]
      split
      · split
        · simpa using h
        · split
          · exact compProcRoots_length_le maxC rf p.comments st.nodes (by omega)
          · exact ih _ (compProcRoots_length_le maxC rf p.comments st.nodes (by omega))
      · exact h

/-! ## Dedup-registry invariant of `DouyinAPICrawler.fetch_video_comments`:
the accumulated comment ids, in order, are exactly the `comment_ids` set,
and that set never holds a duplicate. -/

theorem nodup_append_singleton (l : List String) (a : String) :
    (l ++ [a]).Nodup ↔ l.Nodup ∧ a ∉ l := by
  simp [List.nodup_append]

theorem addFiltered_inv :
    ∀ (rs ns : List ApiComment) (ids : List String),
      ns.map (fun n => n.id) = ids → ids.Nodup →
      (addFiltered rs ns ids).1.map (fun n => n.id) = (addFiltered rs ns ids).2 ∧
        (addFiltered rs ns ids).2.Nodup := by
  intro rs
  induction rs with
  | nil => intro ns ids h1 h2; simpa [addFiltered] using ⟨h1, h2⟩
  | cons r rs ih =>
    intro ns ids h1 h2
    simp only [addFiltered]
    split
    · exact ih ns ids h1 h2
    · rename_i hmem
      refine ih (ns ++ [r]) (ids ++ [r.id]) ?_ ?_
      · simp [h1]
      · exact (nodup_append_singleton ids r.id).2 ⟨h2, hmem⟩

theorem procRoots_inv (maxC : Nat) (fr : Bool) (rf : String → List FetchResult) :
    ∀ (cs : List RawComment) (ns : List ApiComment) (ids : List String),
      ns.map (fun n => n.id) = ids → ids.Nodup →
      (procRoots maxC fr rf cs ns ids).1.map (fun n => n.id) = (procRoots maxC fr rf cs ns ids).2 ∧
        (procRoots maxC fr rf cs ns ids).2.Nodup := by
  intro cs
  induction cs with
  | nil => intro ns ids h1 h2; simpa [procRoots] using ⟨h1, h2⟩
  | cons c cs ih =>
    intro ns ids h1 h2
    simp only [procRoots]
    split
    · exact ih ns ids h1 h2
    · rename_i hmem
      rw [not_or] at hmem
      have hinv1 : (ns ++ [(⟨c.cid, 1⟩ : ApiComment)]).map (fun n => n.id) = ids ++ [c.cid] := by
        simp [h1]
      have hinv2 : (ids ++ [c.cid]).Nodup :=
        (nodup_append_singleton ids c.cid).2 ⟨h2, hmem.2⟩
      split
      · have hf := addFiltered_inv (fetchCommentReplies c.replyTotal (rf c.cid))
          (ns ++ [⟨c.cid, 1⟩]) (ids ++ [c.cid]) hinv1 hinv2
        split
        · exact hf
        · exact ih _ _ hf.1 hf.2
      · split
        · exact ⟨hinv1, hinv2⟩
        · exact ih _ _ hinv1 hinv2

theorem apiFetchLoop_inv (maxC : Nat) (fr : Bool) (rf : String → List FetchResult) :
    ∀ (feed : List FetchResult) (st : ApiSt),
      st.nodes.map (fun n => n.id) = st.ids → st.ids.Nodup →
      (apiFetchLoop maxC fr rf st feed).nodes.map (fun n => n.id) =
          (apiFetchLoop maxC fr rf st feed).ids ∧
        (apiFetchLoop maxC fr rf st feed).ids.Nodup := by
  intro feed
  induction feed with
  | nil => intro st h1 h2; simpa [apiFetchLoop] using ⟨h1, h2⟩
  | cons r rest ih =>
    intro st h1 h2
    match r with
    | .err => simp only [apiFetchLoop]; split <;> simpa [ApiSt.bump] using ⟨h1, h2⟩
    | .nil => simp only [apiFetchLoop]; split <;> simpa [ApiSt.bump] using ⟨h1, h2⟩
    | .page p =>
      simp only [apiFetchLoop]
      split
      · split
        · simpa [ApiSt.bump] using ⟨h1, h2⟩
        · have hp := procRoots_inv maxC fr rf p.comments st.nodes st.ids h1 h2
          split
          · exact hp
          · exact ih _ hp.1 hp.2
      · exact ⟨h1, h2⟩

/-! ## Parent-linkage lemmas for `MixCrawler.get_all_comments` -/

theorem linkedOk_mono :
    ∀ (l s t : List CRow), (∀ x, x ∈ s → x ∈ t) → LinkedOk s l → LinkedOk t l := by
  intro l
  induction l with
  | nil => intro s t _ _; trivial
  | cons n rest ih =>
    intro s t hsub h
    refine ⟨fun h2 => ?_, ih (n :: s) (n :: t) ?_ h.2⟩
    · obtain ⟨m, hm, hlvl, hid⟩ := h.1 h2
      exact ⟨m, hsub m hm, hlvl, hid⟩
    · intro x hx
      rcases List.mem_cons.1 hx with hx | hx
      · exact List.mem_cons.2 (Or.inl hx)
      · exact List.mem_cons.2 (Or.inr (hsub x hx))

theorem linkedOk_append :
    ∀ (a : List CRow) (s b : List CRow),
      LinkedOk s a → LinkedOk (a.reverse ++ s) b → LinkedOk s (a ++ b) := by
  intro a
  induction a with
  | nil => intro s b _ hb; simpa using hb
  | cons x a ih =>
    intro s b hx hb
    refine ⟨hx.1, ih (x :: s) b hx.2 ?_⟩
    have : (x :: a).reverse ++ s = a.reverse ++ (x :: s) := by
      simp
    rw [this] at hb
    exact hb

theorem linkedOk_batch :
    ∀ (b : List CRow) (s : List CRow) (p : String),
      (∀ n ∈ b, n.level = 2 ∧ n.parentId = p) →
      (∃ m ∈ s, m.level = 1 ∧ m.id = p) → LinkedOk s b := by
  intro b
  induction b with
  | nil => intro s p _ _; trivial
  | cons n rest ih =>
    intro s p hall hpar
    obtain ⟨m, hm, hml, hmi⟩ := hpar
    refine ⟨fun _ => ⟨m, hm, hml, by rw [hmi, (hall n (by simp)).2]⟩, ?_⟩
    exact ih (n :: s) p (fun x hx => hall x (by simp [hx]))
      ⟨m, List.mem_cons.2 (Or.inr hm), hml, hmi⟩

theorem linkedOk_of_level_one :
    ∀ (s : List CRow) (n : CRow), n.level = 1 → LinkedOk s [n] := by
  intro s n h
  exact ⟨fun h2 => absurd (h ▸ h2) (by simp), trivial⟩

theorem compAdd_mem (maxN : Nat) (pid : String) :
    ∀ (rs : List RawComment) (ns : List CRow) (n : CRow),
      n ∈ compAdd maxN pid rs ns → n ∈ ns ∨ (n.level = 2 ∧ n.parentId = pid) := by
  intro rs
  induction rs with
  | nil => intro ns n h; exact Or.inl (by simpa [compAdd] using h)
  | cons r rs ih =>
    intro ns n h
    simp only [compAdd] at h
    split at h
    · rcases List.mem_append.1 h with h | h
      · exact Or.inl h
      · simp at h
        exact Or.inr (by simp [h])
    · rcases ih _ n h with h' | h'
      · rcases List.mem_append.1 h' with h'' | h''
        · exact Or.inl h''
        · simp at h''
          exact Or.inr (by simp [h''])
      · exact Or.inr h'

theorem compReplyLoop_mem (maxN : Nat) (pid : String) :
    ∀ (feed : List FetchResult) (ns : List CRow) (n : CRow),
      n ∈ compReplyLoop maxN pid ns feed → n ∈ ns ∨ (n.level = 2 ∧ n.parentId = pid) := by
  intro feed
  induction feed with
  | nil => intro ns n h; exact Or.inl (by simpa [compReplyLoop] using h)
  | cons r rest ih =>
    intro ns n h
    match r with
    | .err => exact Or.inl (by simpa [compReplyLoop] using h)
    | .nil => exact Or.inl (by simpa [compReplyLoop] using h)
    | .page p =>
      simp only [compReplyLoop] at h
      split at h
      · split at h
        · exact Or.inl h
        · split at h
          · exact compAdd_mem maxN pid p.comments ns n h
          · rcases ih _ n h with h' | h'
            · exact compAdd_mem maxN pid p.comments ns n h'
            · exact Or.inr h'
      · exact Or.inl h

theorem getCommentReplies_mem (pid : String) (maxN : Nat) (feed : List FetchResult) :
    ∀ n ∈ getCommentReplies pid maxN feed, n.level = 2 ∧ n.parentId = pid := by
  intro n h
  rcases compReplyLoop_mem maxN pid feed [] n h with h' | h'
  · simp at h'
  · exact h'

theorem compProcRoots_linked (maxC : Nat) (rf : String → List FetchResult) :
    ∀ (cs : List RawComment) (ns : List CRow),
      LinkedOk [] ns → LinkedOk [] (compProcRoots maxC rf cs ns) := by
  intro cs
  induction cs with
  | nil => intro ns h; simpa [compProcRoots] using h
  | cons c cs ih =>
    intro ns h
    simp only [compProcRoots]
    have hns1 : LinkedOk [] (ns ++ [(⟨c.cid, 1, ""⟩ : CRow)]) :=
      linkedOk_append ns [] [⟨c.cid, 1, ""⟩] h (linkedOk_of_level_one _ _ rfl)
    have hns2 : ∀ k, LinkedOk []
        ((ns ++ [(⟨c.cid, 1, ""⟩ : CRow)]) ++ getCommentReplies c.cid k (rf c.cid)) := by
      intro k
      refine linkedOk_append _ [] _ hns1 ?_
      refine linkedOk_batch _ _ c.cid (getCommentReplies_mem c.cid k (rf c.cid)) ?_
      exact ⟨⟨c.cid, 1, ""⟩, by simp, rfl, rfl⟩
    split
    · split
      · exact hns2 _
      · exact ih _ (hns2 _)
    · split
      · exact hns1
      · exact ih _ hns1

theorem compMainLoop_linked (maxC : Nat) (rf : String → List FetchResult) :
    ∀ (feed : List FetchResult) (st : CompSt),
      LinkedOk [] st.nodes → LinkedOk [] (compMainLoop maxC rf st feed).nodes := by
  intro feed
  induction feed with
  | nil => intro st h; simpa [compMainLoop] using h
  | cons r rest ih =>
    intro st h
    match r with
    | .err => simp only [compMainLoop]; split <;> simpa using h
    | .nil => simp only [compMainLoop]; split <;> simpa using h
    | .page p =>
      simp only [compMainLoop]
      split
      · split
        · simpa using h
        · split
          · exact compProcRoots_linked maxC rf p.comments st.nodes h
          · exact ih _ (compProcRoots_linked maxC rf p.comments st.nodes h)
      · exact h

/-! ## Verification-pass lemmas (`DrissionMixCrawler.get_video_comments`) -/

theorem verifyStep_keeps_found (p : List String × Bool) (cid : String) :
    p.2 = true → (verifyStep p cid).2 = true := by
  intro h
  simp only [verifyStep]
  split
  · rfl
  · exact h

theorem foldl_verifyStep_keeps_found :
    ∀ (resp : List String) (p : List String × Bool),
      p.2 = true → (resp.foldl verifyStep p).2 = true := by
  intro resp
  induction resp with
  | nil => intro p h; simpa using h
  | cons c resp ih =>
    intro p h
    simp only [List.foldl_cons]
    exact ih _ (verifyStep_keeps_found p c h)

theorem foldl_verifyStep_sub :
    ∀ (resp : List String) (p : List String × Bool) (x : String),
      x ∈ p.1 → x ∈ (resp.foldl verifyStep p).1 := by
  intro resp
  induction resp with
  | nil => intro p x h; simpa using h
  | cons c resp ih =>
    intro p x h
    simp only [List.foldl_cons]
    apply ih
    simp only [verifyStep]
    split
    · simp [h]
    · exact h

theorem foldl_verifyStep_new :
    ∀ (resp : List String) (p : List String × Bool) (x : String),
      x ∈ (resp.foldl verifyStep p).1 → x ∈ p.1 ∨ (resp.foldl verifyStep p).2 = true := by
  intro resp
  induction resp with
  | nil => intro p x h; exact Or.inl (by simpa using h)
  | cons c resp ih =>
    intro p x h
    simp only [List.foldl_cons] at h ⊢
    rcases ih (verifyStep p c) x h with h' | h'
    · simp only [verifyStep] at h'
      by_cases hc : c ≠ "" ∧ c ∉ p.1
      · rw [if_pos hc] at h'
        simp only [List.mem_append, List.mem_singleton] at h'
        rcases h' with h'' | h''
        · exact Or.inl h''
        · right
          exact foldl_verifyStep_keeps_found resp (verifyStep p c)
            (by simp only [verifyStep]; rw [if_pos hc])
      · rw [if_neg hc] at h'
        exact Or.inl h'
    · exact Or.inr h'

theorem foldl_verifyStep_snd :
    ∀ (resp : List String) (p : List String × Bool),
      (resp.foldl verifyStep p).2 = true ↔
        p.2 = true ∨ ∃ cid ∈ resp, cid ≠ "" ∧ cid ∉ p.1 := by
  intro resp
  induction resp with
  | nil => intro p; simp
  | cons c resp ih =>
    intro p
    simp only [List.foldl_cons]
    rw [ih (verifyStep p c)]
    simp only [verifyStep]
    by_cases hc : c ≠ "" ∧ c ∉ p.1
    · rw [if_pos hc]
      constructor
      · intro _
        exact Or.inr ⟨c, by simp, hc⟩
      · intro _
        exact Or.inl rfl
    · rw [if_neg hc]
      constructor
      · rintro (h | ⟨cid, hm, hp⟩)
        · exact Or.inl h
        · exact Or.inr ⟨cid, List.mem_cons_of_mem _ hm, hp⟩
      · rintro (h | ⟨cid, hm, hne, hnm⟩)
        · exact Or.inl h
        · rcases List.mem_cons.1 hm with rfl | hm'
          · exact absurd ⟨hne, hnm⟩ hc
          · exact Or.inr ⟨cid, hm', hne, hnm⟩

theorem verifyFold_found_iff :
    ∀ (batch : List (List String)) (ids : List String) (found : Bool),
      (verifyFold ids found batch).2 = true ↔
        found = true ∨ ∃ resp ∈ batch, ∃ cid ∈ resp, cid ≠ "" ∧ cid ∉ ids := by
  intro batch
  induction batch with
  | nil => intro ids found; simp [verifyFold]
  | cons resp rest ih =>
    intro ids found
    simp only [verifyFold]
    rw [ih]
    constructor
    · rintro (h2 | ⟨resp', hm, cid, hcm, hne, hnm⟩)
      · rcases (foldl_verifyStep_snd resp (ids, found)).1 h2 with h | ⟨cid, hcm, hprop⟩
        · exact Or.inl h
        · exact Or.inr ⟨resp, by simp, cid, hcm, hprop⟩
      · refine Or.inr ⟨resp', List.mem_cons_of_mem _ hm, cid, hcm, hne, fun hin => ?_⟩
        exact hnm (foldl_verifyStep_sub resp (ids, found) cid hin)
    · rintro (h | ⟨resp', hm, cid, hcm, hne, hnm⟩)
      · exact Or.inl (foldl_verifyStep_keeps_found resp (ids, found) h)
      · rcases List.mem_cons.1 hm with rfl | hm'
        · exact Or.inl ((foldl_verifyStep_snd resp' (ids, found)).2 (Or.inr ⟨cid, hcm, hne, hnm⟩))
        · by_cases hr : cid ∈ (resp.foldl verifyStep (ids, found)).1
          · rcases foldl_verifyStep_new resp (ids, found) cid hr with h' | h'
            · exact absurd h' hnm
            · exact Or.inl h'
          · exact Or.inr ⟨resp', hm', cid, hcm, hne, hr⟩

theorem foldl_verifyStep_nofresh :
    ∀ (resp : List String) (ids : List String) (found : Bool),
      (∀ cid ∈ resp, cid = "" ∨ cid ∈ ids) →
      resp.foldl verifyStep (ids, found) = (ids, found) := by
  intro resp
  induction resp with
  | nil => intro ids found _; simp
  | cons c resp ih =>
    intro ids found h
    simp only [List.foldl_cons, verifyStep]
    split
    · rename_i hc
      have hcs := h c (by simp)
      rcases hcs with h1 | h1
      · exact absurd h1 hc.1
      · exact absurd h1 hc.2
    · exact ih ids found (fun cid hm => h cid (List.mem_cons_of_mem _ hm))

theorem verifyFold_nofresh :
    ∀ (batch : List (List String)) (ids : List String),
      (∀ resp ∈ batch, ∀ cid ∈ resp, cid = "" ∨ cid ∈ ids) →
      verifyFold ids false batch = (ids, false) := by
  intro batch
  induction batch with
  | nil => intro ids _; simp [verifyFold]
  | cons resp rest ih =>
    intro ids h
    simp only [verifyFold]
    rw [foldl_verifyStep_nofresh resp ids false (h resp (by simp))]
    exact ih ids (fun r hr => h r (List.mem_cons_of_mem _ hr))

/-! ## Claim theorems -/

/-- Claim C1, counterexample.  `MixCrawler.get_all_comments` performs no
deduplication: a single page delivering the id `"a"` twice yields a result
whose node ids are not pairwise distinct, so a completed harvest can contain
duplicate comment ids, contrary to the claim. -/
theorem claim_C1_counterexample :
    ¬ (((getAllComments 100 (fun _ => [])
        [.page ⟨[⟨"a", 0⟩, ⟨"a", 0⟩], false, 0⟩]).nodes.map (fun n => n.id)).Nodup) := by
  decide

/-- Claim C1, amended.  In `DouyinAPICrawler.fetch_video_comments` the
harvested node ids are pairwise distinct for every feed — roots and replies
alike — and the number of nodes equals the size of the session's
`comment_ids` dedup set.  (`MixCrawler.get_all_comments` has no dedup set
and is exempt, see the counterexample.) -/
theorem claim_C1_amended :
    ∀ (maxC : Nat) (fr : Bool) (rf : String → List FetchResult) (feed : List FetchResult),
      ((apiFetchVideoComments maxC fr rf feed).nodes.map (fun n => n.id)).Nodup ∧
      (apiFetchVideoComments maxC fr rf feed).nodes.length =
        (apiFetchVideoComments maxC fr rf feed).ids.length := by
  intro maxC fr rf feed
  have h := apiFetchLoop_inv maxC fr rf feed ⟨[], [], 0, 0⟩ (by simp) (by simp)
  refine ⟨by simp only [apiFetchVideoComments]; rw [h.1]; exact h.2, ?_⟩
  have hlen := congrArg List.length h.1
  simp only [apiFetchVideoComments]
  simpa using hlen

/-- Claim C2, counterexample.  `DouyinAPICrawler.fetch_video_comments`
checks the cap only after a root's whole reply batch has been appended:
with `max_comments = 1` and one root carrying two replies the result holds
3 nodes, exceeding the cap. -/
theorem claim_C2_counterexample :
    ¬ ((apiFetchVideoComments 1 true
        (fun _ => [.page ⟨[⟨"x", 0⟩, ⟨"y", 0⟩], false, 5⟩])
        [.page ⟨[⟨"r", 2⟩], false, 5⟩]).nodes.length ≤ 1) := by
  decide

/-- Claim C2, amended.  `MixCrawler.get_all_comments` respects the cap:
`actualCount ≤ max_comments` for every feed and cap value.
`DouyinAPICrawler.fetch_video_comments` can overshoot by the trailing reply
batch of the last root, which is itself bounded by 100, so there
`actualCount ≤ max_comments + 100`. -/
theorem claim_C2_amended :
    (∀ (maxC : Nat) (rf : String → List FetchResult) (feed : List FetchResult),
        (getAllComments maxC rf feed).nodes.length ≤ maxC) ∧
    (∀ (maxC : Nat) (fr : Bool) (rf : String → List FetchResult) (feed : List FetchResult),
        (apiFetchVideoComments maxC fr rf feed).nodes.length ≤ maxC + 100) := by
  constructor
  · intro maxC rf feed
    exact compMainLoop_length_le maxC rf feed ⟨[], 0⟩ (by simp)
  · intro maxC fr rf feed
    exact apiFetchLoop_length_le maxC fr rf feed ⟨[], [], 0, 0⟩ (by simp)

/-- Claim C3, counterexample.  `MixCrawler.get_all_comments` has no
cursor-equality guard: on a feed of ten consecutive pages all returning the
identical cursor 7 with `has_more = 1` it makes all ten fetch calls — far
more than the one extra call the claim allows — stopping only because the
feed is exhausted (or the cap is reached). -/
theorem claim_C3_counterexample :
    (getAllComments 100 (fun _ => [])
        (List.replicate 10 (.page ⟨[⟨"a", 0⟩], true, 7⟩))).calls = 10 ∧
    ¬ ((getAllComments 100 (fun _ => [])
        (List.replicate 10 (.page ⟨[⟨"a", 0⟩], true, 7⟩))).calls ≤ 3) := by
  decide

/-- Claim C3, amended.  The anti-loop guard exists in `DouyinAPICrawler`
only: in both its root-comment loop and its reply sub-fetch, as soon as a
page returns a cursor equal to the previous one the loop stops there — the
remainder of the feed is never consulted, whatever it contains.
(`MixCrawler` has no such guard, see the counterexample.) -/
theorem claim_C3_amended :
    (∀ (maxC : Nat) (fr : Bool) (rf : String → List FetchResult) (st : ApiSt) (p : Page)
        (rest rest' : List FetchResult), p.cursor = st.cursor →
        apiFetchLoop maxC fr rf st (.page p :: rest) =
          apiFetchLoop maxC fr rf st (.page p :: rest')) ∧
    (∀ (maxR : Nat) (st : ReplySt) (p : Page) (rest rest' : List FetchResult),
        p.cursor = st.cursor →
        replyLoop maxR st (.page p :: rest) = replyLoop maxR st (.page p :: rest')) := by
  constructor
  · intro maxC fr rf st p rest rest' h
    simp only [apiFetchLoop]
    split
    · split
      · rfl
      · simp only [if_pos (Or.inr h)]
    · rfl
  · intro maxR st p rest rest' h
    simp only [replyLoop]
    split
    · split
      · rfl
      · simp only [if_pos (Or.inr h)]
    · rfl

/-- Claim C3, witness: the root loop of `DouyinAPICrawler` at a page whose
cursor equals the current one gives the same result whether or not further
feed entries exist. -/
theorem claim_C3_witness :
    apiFetchLoop 10 true (fun _ => []) ⟨[], [], 5, 1⟩ [.page ⟨[⟨"a", 0⟩], true, 5⟩, .nil] =
      apiFetchLoop 10 true (fun _ => []) ⟨[], [], 5, 1⟩ [.page ⟨[⟨"a", 0⟩], true, 5⟩] :=
  claim_C3_amended.1 10 true (fun _ => []) ⟨[], [], 5, 1⟩ ⟨[⟨"a", 0⟩], true, 5⟩ [.nil] [] rfl

set_option maxRecDepth 10000 in
/-- Claim C4, counterexample.  `MixCrawler.get_comment_replies` caps a
parent's replies by the remaining overall budget, not by
`min(replyCount, 100)`: with `max_comments = 1000`, a root reporting
`reply_comment_total = 150` whose reply feed supplies 150 records gets all
150 level-2 nodes attached — more than the 100 the claim allows. -/
theorem claim_C4_counterexample :
    ¬ (((getAllComments 1000
        (fun _ => [.page ⟨List.replicate 150 ⟨"x", 0⟩, false, 0⟩])
        [.page ⟨[⟨"r", 150⟩], false, 3⟩]).nodes.filter (fun n => n.level == 2)).length ≤ 100) := by
  decide

/-- Claim C4, amended.  `DouyinAPICrawler.fetch_comment_replies` retrieves
at most `min(replyCount, 100)` replies per parent, for every reply feed.
`MixCrawler.get_comment_replies` is instead bounded by its `max_needed`
argument, the remaining overall budget `max_comments - len(collected)`
(see the counterexample). -/
theorem claim_C4_amended :
    (∀ (expected : Nat) (feed : List FetchResult),
        (fetchCommentReplies expected feed).length ≤ min expected 100) ∧
    (∀ (pid : String) (maxN : Nat) (feed : List FetchResult),
        (getCommentReplies pid maxN feed).length ≤ maxN) :=
  ⟨fetchCommentReplies_length_le, getCommentReplies_length_le⟩

/-- Claim C5, counterexample.  Both `process_video` variants compute
`(actual_count / total_expected * 100) if total_expected > 0 else 0`: a
subject with `expectedCount = 0` gets coverage 0, not the claimed full
coverage 1.0 (i.e. 100 percent). -/
theorem claim_C5_counterexample :
    coveragePct 7 0 = 0 ∧ coveragePct 7 0 ≠ 100 := by
  norm_num [coveragePct]

/-- Claim C5, amended.  The coverage evaluation returns
`actualCount / expectedCount` (as a percentage) when `expectedCount > 0`,
and returns 0 — not 1.0 — when `expectedCount = 0`.  (In both callers the
zero-expected branch is unreachable, as comments are fetched only when
`expectedCount > 0`.) -/
theorem claim_C5_amended :
    ∀ (actual expected : Nat),
      (0 < expected → coveragePct actual expected = (actual : ℚ) / (expected : ℚ) * 100) ∧
      (expected = 0 → coveragePct actual expected = 0) := by
  intro a e
  constructor
  · intro h; simp [coveragePct, h]
  · intro h; simp [coveragePct, h]

/-- Claim C5, witness: coverage at `(3, 2)` is `3/2 * 100`, and at `(3, 0)`
it is 0. -/
theorem claim_C5_witness :
    coveragePct 3 2 = (3 : ℚ) / (2 : ℚ) * 100 ∧ coveragePct 3 0 = 0 :=
  ⟨(claim_C5_amended 3 2).1 (by norm_num), (claim_C5_amended 3 0).2 rfl⟩

/-- Claim C6, confirmed.  In `DrissionMixCrawler.get_video_comments`, when
the logged coverage reaches 100 percent the loop runs one verification pass
over the pending responses: if the pass yields at least one previously
unseen non-empty id, harvesting resumes (with the new ids registered); if
it yields none, harvesting stops with the seen set unchanged; below 100
percent the check does not trigger. -/
theorem claim_C6_verification_pass :
    ∀ (expected : Nat) (ids : List String) (batch : List (List String)),
      (100 ≤ coveragePct ids.length expected →
        (∃ resp ∈ batch, ∃ cid ∈ resp, cid ≠ "" ∧ cid ∉ ids) →
        coverageCheck expected ids batch =
          some (.resume, (verifyFold ids false batch).1)) ∧
      (100 ≤ coveragePct ids.length expected →
        (∀ resp ∈ batch, ∀ cid ∈ resp, cid = "" ∨ cid ∈ ids) →
        coverageCheck expected ids batch = some (.stop, ids)) ∧
      (coveragePct ids.length expected < 100 → coverageCheck expected ids batch = none) := by
  intro e ids batch
  refine ⟨?_, ?_, ?_⟩
  · intro hcov hex
    simp only [coverageCheck]
    rw [if_pos hcov]
    have hf : (verifyFold ids false batch).2 = true :=
      (verifyFold_found_iff batch ids false).2 (Or.inr hex)
    rw [if_pos hf]
  · intro hcov hall
    simp only [coverageCheck]
    rw [if_pos hcov, verifyFold_nofresh batch ids hall]
    simp
  · intro hcov
    simp only [coverageCheck]
    rw [if_neg (not_le.2 hcov)]

/-- Claim C6, witness: with 2 expected comments, 2 seen ids and one pending
response carrying the fresh id `"c"`, the check triggers and resumes. -/
theorem claim_C6_witness :
    coverageCheck 2 ["a", "b"] [["c"]] =
      some (.resume, (verifyFold ["a", "b"] false [["c"]]).1) :=
  (claim_C6_verification_pass 2 ["a", "b"] [["c"]]).1 (by norm_num [coveragePct])
    ⟨["c"], by simp, "c", by simp, by simp, by simp⟩

/-- Claim C7, counterexample.  With `expectedCount = 2000 > 1500` the
lightweight API strategy is chosen; when it returns zero items the
harvester keeps the empty result and never invokes the intensive strategy —
there is no fallback in `DrissionMixCrawler.process_video`. -/
theorem claim_C7_counterexample :
    (acquireComments true 2000 [] (some [⟨"a", 1, ""⟩])).1 = [] ∧
    Strategy.intensive ∉ (acquireComments true 2000 [] (some [⟨"a", 1, ""⟩])).2.2 := by
  decide

/-- Claim C7, amended.  The strategy selector picks the lightweight
(API, root-comments-only) strategy exactly when `expectedCount` exceeds the
threshold 1500, the intensive (browser) strategy otherwise; and whenever
comments are crawled exactly that one strategy is invoked — a zero-item
first result triggers no fallback to the other strategy. -/
theorem claim_C7_amended :
    ∀ (cc : Bool) (expected : Nat) (apiResult : List CRow) (browserResult : Option (List CRow)),
      (cc = true ∧ 0 < expected →
        (acquireComments cc expected apiResult browserResult).2.2 = [selectStrategy expected]) ∧
      (selectStrategy expected = .lightweight ↔ 1500 < expected) := by
  intro cc e api br
  constructor
  · rintro ⟨hcc, he⟩
    by_cases h : 1500 < e
    · simp [acquireComments, selectStrategy, LARGE_COMMENT_THRESHOLD, h, hcc, he]
    · cases br <;>
        simp [acquireComments, selectStrategy, LARGE_COMMENT_THRESHOLD, h, hcc, he]
  · by_cases h : 1500 < e
    · simp [selectStrategy, LARGE_COMMENT_THRESHOLD, h]
    · simp only [selectStrategy, LARGE_COMMENT_THRESHOLD, if_neg h]
      constructor
      · intro hc; exact absurd hc (by decide)
      · intro hc; exact absurd hc h

/-- Claim C7, witness: at `expectedCount = 2000` with a crawl requested,
exactly the lightweight strategy is invoked, and the selector equivalence
holds. -/
theorem claim_C7_witness :
    (acquireComments true 2000 [] none).2.2 = [selectStrategy 2000] :=
  (claim_C7_amended true 2000 [] none).1 ⟨rfl, by norm_num⟩

/-- Claim C8, confirmed.  In `DouyinAPICrawler.fetch_video_comments` an
exception during a fetch is absorbed exactly like a falsy response or an
empty page (the loop breaks), the partial accumulated comments are returned
as the result, and in `crawl_mix` the per-video loop processes every video:
each one ends up counted as processed or failed, a failure never stopping
the walk. -/
theorem claim_C8_failure_absorption :
    (∀ (maxC : Nat) (fr : Bool) (rf : String → List FetchResult) (st : ApiSt)
        (rest : List FetchResult),
        apiFetchLoop maxC fr rf st (.err :: rest) = apiFetchLoop maxC fr rf st (.nil :: rest)) ∧
    (∀ (maxC : Nat) (fr : Bool) (rf : String → List FetchResult) (st : ApiSt)
        (rest : List FetchResult) (hm : Bool) (cur : Nat),
        apiFetchLoop maxC fr rf st (.err :: rest) =
          apiFetchLoop maxC fr rf st (.page ⟨[], hm, cur⟩ :: rest)) ∧
    (∀ (maxC : Nat) (fr : Bool) (rf : String → List FetchResult) (st : ApiSt)
        (rest : List FetchResult),
        (apiFetchLoop maxC fr rf st (.err :: rest)).nodes = st.nodes) ∧
    (∀ (p f : Nat) (vs : List VideoOutcome),
        (crawlLoop ⟨p, f⟩ vs).processed + (crawlLoop ⟨p, f⟩ vs).failed = p + f + vs.length) := by
  refine ⟨?_, ?_, ?_, ?_⟩
  · intro maxC fr rf st rest
    simp only [apiFetchLoop]
  · intro maxC fr rf st rest hm cur
    simp only [apiFetchLoop]
    split <;> rfl
  · intro maxC fr rf st rest
    simp only [apiFetchLoop]
    split <;> simp [ApiSt.bump]
  · intro p f vs
    induction vs generalizing p f with
    | nil => simp [crawlLoop]
    | cons v rest ih =>
      cases v
      · have := ih (p + 1) f
        simp only [crawlLoop, List.length_cons]
        omega
      · have := ih p (f + 1)
        simp only [crawlLoop, List.length_cons]
        omega

/-- Claim C9, counterexample.  The Playwright assembly links a level-2
comment to the most recent preceding level-1 item; when the extracted list
begins with a level-2 item (e.g. the parent root was dropped for empty
content) its `parentId` is the empty string, which is the id of no level-1
node in the result. -/
theorem claim_C9_counterexample :
    (pwBuild (fun _ i => toString i) 10 [⟨2⟩]).length = 1 ∧
    ¬ LinkedOk [] (pwBuild (fun _ i => toString i) 10 [⟨2⟩]) := by
  constructor
  · decide
  · decide

/-- Claim C9, amended.  In `MixCrawler.get_all_comments` every level-2 row
of the result names as `parentId` the id of a level-1 row appended earlier
in the same result (each root is appended right before its replies), for
every feed.  (The Playwright variant does not guarantee this, see the
counterexample.) -/
theorem claim_C9_amended :
    ∀ (maxC : Nat) (rf : String → List FetchResult) (feed : List FetchResult),
      LinkedOk [] (getAllComments maxC rf feed).nodes := by
  intro maxC rf feed
  exact compMainLoop_linked maxC rf feed ⟨[], 0⟩ trivial

/-- Claim C10, confirmed.  `DouyinAPICrawler._parse_comment` is total on
dictionary inputs — every raising operation in its body is caught by the
`except` fallback — and the returned record's `level` always equals the
`level` argument, in the normal branch and the fallback branch alike. -/
theorem claim_C10_parse_total_level :
    ∀ (c : List (String × PyVal)) (level : Nat) (fmtTime : Int → Option String),
      (parseComment c level fmtTime).level = level := by
  intro c level fmtTime
  cases h : tryParseComment c level fmtTime with
  | none => simp [parseComment, h]
  | some p =>
    have hp : p.level = level := by
      simp only [tryParseComment] at h
      split at h
      · split at h
        · injection h with h'
          subst h'
          rfl
        · exact Option.noConfusion h
      · exact Option.noConfusion h
    simp [parseComment, h, hp]

end DouyinCrawl
